import Mathlib

/-!
# Verification of the pan-tilt serial-probe repository

A shallow embedding, in Lean 4, of the decision logic of the repository's
five probing scripts:

* `pantilt_simulator.py` — `PanTiltController.read_response` (marker-delimited
  frame reassembly with a `max_bytes` bound), `compare_response` (response
  matcher), `send_command` (command-table lookup and block write), and the
  `main` sweep over parity/stop-bit configurations with its heartbeat cycle.
* `pantilt_comm.py` — `PanTiltConnector.receive_response` (chunked drain loop),
  `send_bytes_with_delay` (uniform per-byte pacing), `hex_to_bytes` /
  `bytes_to_hex_string`, `run_test_sequence` (sync, escalating initialization,
  heartbeat cycle) and `try_all_configurations` (the configuration sweep).
* `pantilt_protocol.py` — `PanTiltProtocol.hex_to_bytes` and
  `send_command_with_precise_timing` (marker-aware per-byte pacing).

Bytes are modelled as natural numbers (all concrete byte values are < 256);
byte strings as `List Nat`; Python text strings as `List Char`.  Wall-clock
loops are modelled by their observable schedule: a byte (or chunk) stream is
the sequence of reads the loop would perform before its deadline, so the
deadline corresponds to exhausting the stream.  Serial writes, flushes and
sleeps are modelled as explicit event traces.
-/

/-! ## pantilt_simulator.py: PanTiltController.read_response (lines 150-220)

The read loop consumes one byte per poll iteration while
`time.time() - start_time < timeout and len(buffer) < max_bytes`.
A byte equal to `0x3C` (when no start marker was seen yet) starts the frame
buffer; once started, bytes are appended until `0x7C` is appended, which
breaks the loop.  Every byte read is also kept in `raw_buffer`. -/

def read_loop (max_bytes : Nat) : List Nat → List Nat → List Nat → Bool → List Nat × List Nat
  | [], buffer, raw_buffer, _ => (buffer, raw_buffer)
  | b :: rest, buffer, raw_buffer, found_start =>
    if buffer.length < max_bytes then
      if !found_start && b == 0x3C then
        read_loop max_bytes rest [b] (raw_buffer ++ [b]) true
      else if found_start then
        if b == 0x7C then (buffer ++ [b], raw_buffer ++ [b])
        else read_loop max_bytes rest (buffer ++ [b]) (raw_buffer ++ [b]) found_start
      else
        read_loop max_bytes rest buffer (raw_buffer ++ [b]) found_start
    else (buffer, raw_buffer)

/-- `read_response`: runs the read loop on the byte stream that arrives before
the deadline and returns what the Python function returns: the framed `buffer`
if a start marker was found, otherwise the raw accumulation
(`return raw_buffer if raw_buffer else b''`). -/
def read_response (stream : List Nat) (max_bytes : Nat) : List Nat :=
  let p := read_loop max_bytes stream [] [] false
  if p.1 = [] then p.2 else p.1

/-- The completeness check the code applies to the returned buffer
(`buffer.endswith(b'\x7C')`). -/
def frame_complete (buffer : List Nat) : Bool :=
  buffer.getLast? == some 0x7C

/-- The frame body between the two markers: the returned buffer with the
start marker and the final byte stripped. -/
def frame_payload (buffer : List Nat) : List Nat :=
  (buffer.drop 1).dropLast

/-! ## pantilt_simulator.py: PanTiltController.compare_response (lines 222-260) -/

/-- The observable result of `compare_response`: the returned boolean, the two
lengths it logs, and the `differences` index list it logs. -/
structure MatchResult where
  equal : Bool
  length_actual : Nat
  length_expected : Nat
  diff_positions : List Nat
deriving DecidableEq, Repr

/-- `for i in range(min_len): if actual[i] != expected[i]: differences.append(i)` -/
def diffIndexList (actual expected : List Nat) : List Nat :=
  (List.range (min actual.length expected.length)).filter
    (fun i => actual.getD i 0 ≠ expected.getD i 0)

/-- `compare_response`: returns `True` immediately on exact equality (logging
no differences); otherwise logs both lengths and every differing index below
the shorter length and returns `False`. -/
def compare_response (actual expected : List Nat) : MatchResult :=
  if actual = expected then ⟨true, actual.length, expected.length, []⟩
  else ⟨false, actual.length, expected.length, diffIndexList actual expected⟩

/-- C7: `compare_response` reports `equal = true` iff the two byte sequences
are identical; it reports both lengths; `diff_positions` is exactly the
ascending list of every index `i < min (len actual) (len expected)` at which
the bytes differ (so a length mismatch does not prevent position comparison);
and on `[0x3C,0x80,0x5C]` vs `[0x3C,0x81,0x5C]` the result is `equal = false`
with `diff_positions = [1]`. -/
theorem c7_matcher (actual expected : List Nat) :
    ((compare_response actual expected).equal = true ↔ actual = expected)
    ∧ (compare_response actual expected).length_actual = actual.length
    ∧ (compare_response actual expected).length_expected = expected.length
    ∧ (∀ i, i ∈ (compare_response actual expected).diff_positions ↔
        (i < min actual.length expected.length ∧ actual.getD i 0 ≠ expected.getD i 0))
    ∧ (compare_response actual expected).diff_positions.Pairwise (· < ·)
    ∧ compare_response [0x3C, 0x80, 0x5C] [0x3C, 0x81, 0x5C] = ⟨false, 3, 3, [1]⟩ := by
  refine ⟨?_, ?_, ?_, ?_, ?_, by decide⟩
  · by_cases h : actual = expected <;> simp [compare_response, h]
  · by_cases h : actual = expected <;> simp [compare_response, h]
  · by_cases h : actual = expected <;> simp [compare_response, h]
  · intro i
    by_cases h : actual = expected
    · subst h
      simp [compare_response]
    · simp [compare_response, h, diffIndexList, List.mem_filter, List.mem_range]
  · by_cases h : actual = expected
    · simp [compare_response, h]
    · simp only [compare_response, h, if_false]
      exact (List.pairwise_lt_range _).filter _

/-! ## pantilt_comm.py: PanTiltConnector.receive_response (lines 178-215)

The loop polls `in_waiting` until the wall-clock timeout; each poll drains all
currently-available bytes (one chunk) into `response`.  After a nonempty
drain, if `expected_end` was given, occurs in `response`, and
`len(response) >= min_bytes`, the loop waits one 50 ms grace interval, drains
once more and breaks.  A poll schedule is modelled as the list of chunks the
successive drains would see before the deadline (an empty chunk is a poll
with `in_waiting == 0`). -/

def receive_loop (min_bytes : Nat) (expected_end : Option Nat) :
    List (List Nat) → List Nat → List Nat
  | [], response => response
  | chunk :: rest, response =>
    if chunk = [] then receive_loop min_bytes expected_end rest response
    else
      let response2 := response ++ chunk
      match expected_end with
      | some e =>
        if e ∈ response2 ∧ min_bytes ≤ response2.length then
          response2 ++ rest.headD []
        else receive_loop min_bytes expected_end rest response2
      | none => receive_loop min_bytes expected_end rest response2

/-- `receive_response`: runs the drain loop from an empty accumulation buffer
and returns the accumulated response. -/
def receive_response (chunks : List (List Nat)) (min_bytes : Nat)
    (expected_end : Option Nat) : List Nat :=
  receive_loop min_bytes expected_end chunks []


/-! ## Lemmas about the two receive loops -/

/-- Once the start marker has been consumed, the `read_response` loop appends
every following byte up to and including the first `0x7C`, as long as the
`max_bytes` bound is not hit. -/
theorem read_loop_found (max_bytes : Nat) (p : List Nat) (h7 : 0x7C ∉ p) :
    ∀ (buffer raw rest : List Nat), buffer.length + p.length < max_bytes →
      read_loop max_bytes (p ++ 0x7C :: rest) buffer raw true
        = (buffer ++ p ++ [0x7C], raw ++ p ++ [0x7C]) := by
  induction p with
  | nil =>
    intro buffer raw rest hlen
    simp only [List.length_nil, Nat.add_zero] at hlen
    simp [read_loop, hlen]
  | cons a p ih =>
    intro buffer raw rest hlen
    have ha : a ≠ 0x7C := fun h => h7 (by simp [h])
    have h7' : 0x7C ∉ p := fun h => h7 (List.mem_cons_of_mem _ h)
    have hb : buffer.length < max_bytes := by
      simp only [List.length_cons] at hlen; omega
    have hlen' : (buffer ++ [a]).length + p.length < max_bytes := by
      simp only [List.length_append, List.length_cons, List.length_nil] at hlen ⊢
      omega
    have hstep : read_loop max_bytes ((a :: p) ++ 0x7C :: rest) buffer raw true
        = read_loop max_bytes (p ++ 0x7C :: rest) (buffer ++ [a]) (raw ++ [a]) true := by
      simp [read_loop, hb, ha]
    rw [hstep, ih h7' (buffer ++ [a]) (raw ++ [a]) rest hlen']
    simp

/-- While no start marker has been seen, the frame buffer stays empty (so the
`max_bytes` bound never fires) and every byte read lands in `raw_buffer`. -/
theorem read_loop_no_start (max_bytes : Nat) :
    ∀ (stream : List Nat), 0x3C ∉ stream → 0 < max_bytes → ∀ raw,
      read_loop max_bytes stream [] raw false = ([], raw ++ stream) := by
  intro stream
  induction stream with
  | nil => intro _ _ raw; simp [read_loop]
  | cons b rest ih =>
    intro h hm raw
    have hb : b ≠ 0x3C := fun hh => h (by simp [hh])
    have h' : 0x3C ∉ rest := fun hh => h (List.mem_cons_of_mem _ hh)
    simp [read_loop, hm, hb, ih h' hm]

/-! ## C4: Frame Codec round-trip, decided by `read_response` -/

/-- C4 (amended): the round-trip holds for every marker-free payload whose
whole frame fits under `read_response`'s byte bound: with the default
`max_bytes = 50`, for payloads of length ≤ 48, decoding
`0x3C ++ payload ++ 0x7C` returns the full frame, complete, with the original
payload between the markers. -/
theorem c4_roundtrip (p : List Nat) (h3 : 0x3C ∉ p) (h7 : 0x7C ∉ p)
    (hlen : p.length ≤ 48) :
    read_response (0x3C :: p ++ [0x7C]) 50 = 0x3C :: p ++ [0x7C]
    ∧ frame_complete (read_response (0x3C :: p ++ [0x7C]) 50) = true
    ∧ frame_payload (read_response (0x3C :: p ++ [0x7C]) 50) = p := by
  have hstep : read_loop 50 (0x3C :: p ++ [0x7C]) [] [] false
      = read_loop 50 (p ++ 0x7C :: []) [0x3C] [0x3C] true := by
    simp [read_loop]
  have hlen' : ([0x3C] : List Nat).length + p.length < 50 := by
    simp only [List.length_cons, List.length_nil]; omega
  have hmain : read_loop 50 (0x3C :: p ++ [0x7C]) [] [] false
      = (0x3C :: p ++ [0x7C], 0x3C :: p ++ [0x7C]) := by
    rw [hstep, read_loop_found 50 p h7 [0x3C] [0x3C] [] hlen']
    simp
  have hresp : read_response (0x3C :: p ++ [0x7C]) 50 = 0x3C :: p ++ [0x7C] := by
    simp only [read_response]
    rw [hmain]
    simp
  refine ⟨hresp, ?_, ?_⟩
  · rw [hresp]
    show ((0x3C :: p) ++ [0x7C]).getLast? == some 0x7C
    rw [List.getLast?_concat]
    rfl
  · rw [hresp]
    show ((0x3C :: p ++ [0x7C]).drop 1).dropLast = p
    simp [List.dropLast_concat]

/-- Witness for C4 at the concrete payload `[0x80, 0x00]`. -/
theorem c4_roundtrip_witness :
    read_response (0x3C :: [0x80, 0x00] ++ [0x7C]) 50 = 0x3C :: [0x80, 0x00] ++ [0x7C]
    ∧ frame_complete (read_response (0x3C :: [0x80, 0x00] ++ [0x7C]) 50) = true
    ∧ frame_payload (read_response (0x3C :: [0x80, 0x00] ++ [0x7C]) 50) = [0x80, 0x00] :=
  c4_roundtrip [0x80, 0x00] (by decide) (by decide) (by decide)

/-- C4 counterexample: a 49-byte marker-free payload breaks the round-trip as
originally claimed — `read_response` stops at its `max_bytes = 50` bound
before the end marker, so the decoded frame is truncated and incomplete. -/
theorem c4_counterexample :
    (0x3C ∉ List.replicate 49 0x00 ∧ 0x7C ∉ List.replicate 49 0x00)
    ∧ read_response (0x3C :: List.replicate 49 0x00 ++ [0x7C]) 50
        = 0x3C :: List.replicate 49 0x00
    ∧ frame_complete (read_response (0x3C :: List.replicate 49 0x00 ++ [0x7C]) 50) = false
    ∧ frame_payload (read_response (0x3C :: List.replicate 49 0x00 ++ [0x7C]) 50)
        ≠ List.replicate 49 0x00 := by
  decide

/-! ## C5: the receive loops' stopping conditions -/

/-- With no expected end marker, `receive_response`'s loop drains every chunk
until the deadline. -/
theorem receive_loop_all_none (min_bytes : Nat) :
    ∀ (chunks : List (List Nat)) (response : List Nat),
      receive_loop min_bytes none chunks response = response ++ chunks.flatten := by
  intro chunks
  induction chunks with
  | nil => intro response; simp [receive_loop]
  | cons c rest ih =>
    intro response
    by_cases hc : c = []
    · subst hc; simp [receive_loop, ih]
    · simp [receive_loop, hc, ih]

/-- If the expected end marker never arrives, the early-exit condition never
fires and the loop drains every chunk until the deadline. -/
theorem receive_loop_no_end (min_bytes : Nat) (e : Nat) :
    ∀ (chunks : List (List Nat)) (response : List Nat),
      e ∉ chunks.flatten → e ∉ response →
      receive_loop min_bytes (some e) chunks response = response ++ chunks.flatten := by
  intro chunks
  induction chunks with
  | nil => intro response _ _; simp [receive_loop]
  | cons c rest ih =>
    intro response hj hr
    have hcj : e ∉ c ∧ e ∉ rest.flatten := by
      constructor <;> intro hx <;> exact hj (by simp [hx])
    by_cases hc : c = []
    · subst hc
      simp only [receive_loop, if_pos rfl]
      have := ih response hcj.2 hr
      simpa using this
    · have hmem : e ∉ response ++ c := by
        intro hx
        rcases List.mem_append.mp hx with h1 | h2
        · exact hr h1
        · exact hcj.1 h2
      have hcond : ¬(e ∈ response ++ c ∧ min_bytes ≤ (response ++ c).length) :=
        fun hx => hmem hx.1
      simp only [receive_loop, hc, if_neg hc, if_neg hcond]
      rw [ih (response ++ c) hcj.2 hmem]
      simp

/-- Whatever the loop returns is the concatenation of an initial run of the
drained chunks: no drained byte is ever dropped or truncated. -/
theorem receive_loop_prefix (min_bytes : Nat) (ee : Option Nat) :
    ∀ (chunks : List (List Nat)) (response : List Nat),
      ∃ k, receive_loop min_bytes ee chunks response
            = response ++ ((chunks.take k).flatten) := by
  intro chunks
  induction chunks with
  | nil => intro response; exact ⟨0, by simp [receive_loop]⟩
  | cons c rest ih =>
    intro response
    by_cases hc : c = []
    · obtain ⟨k, hk⟩ := ih response
      refine ⟨k + 1, ?_⟩
      subst hc
      simpa [receive_loop] using hk
    · cases ee with
      | none =>
        obtain ⟨k, hk⟩ := ih (response ++ c)
        refine ⟨k + 1, ?_⟩
        simp only [receive_loop, if_neg hc]
        rw [hk]
        simp
      | some e =>
        by_cases hcond : e ∈ response ++ c ∧ min_bytes ≤ (response ++ c).length
        · refine ⟨2, ?_⟩
          simp only [receive_loop, if_neg hc, if_pos hcond]
          cases rest with
          | nil => simp
          | cons r0 rrest => simp
        · obtain ⟨k, hk⟩ := ih (response ++ c)
          refine ⟨k + 1, ?_⟩
          simp only [receive_loop, if_neg hc, if_neg hcond]
          rw [hk]
          simp

/-- C5 (amended): `pantilt_comm.PanTiltConnector.receive_response` stops only
at the deadline or on the end-marker early-exit condition: when no end marker
is expected, or the expected marker never arrives, it drains every byte that
arrives before the deadline; and whatever makes it stop, the returned buffer
is exactly the concatenation of the chunks drained so far — it never truncates
on a byte count.  (`pantilt_simulator.read_response` does have a byte-count
bound; see the counterexample.) -/
theorem c5_amended (chunks : List (List Nat)) (min_bytes : Nat) (e : Nat)
    (h : e ∉ chunks.flatten) :
    receive_response chunks min_bytes none = chunks.flatten
    ∧ receive_response chunks min_bytes (some e) = chunks.flatten
    ∧ ∀ ee : Option Nat, ∃ k,
        receive_response chunks min_bytes ee = ((chunks.take k).flatten) := by
  refine ⟨?_, ?_, ?_⟩
  · simpa using receive_loop_all_none min_bytes chunks []
  · simpa using receive_loop_no_end min_bytes e chunks [] h (by simp)
  · intro ee
    simpa using receive_loop_prefix min_bytes ee chunks []

/-- Witness for C5 at a concrete two-chunk schedule without the marker. -/
theorem c5_amended_witness :
    receive_response [[0x3C, 0x80], [0x90]] 1 none = [[0x3C, 0x80], [0x90]].flatten
    ∧ receive_response [[0x3C, 0x80], [0x90]] 1 (some 0x7C) = [[0x3C, 0x80], [0x90]].flatten
    ∧ ∀ ee : Option Nat, ∃ k,
        receive_response [[0x3C, 0x80], [0x90]] 1 ee
          = (([[0x3C, 0x80], [0x90]] : List (List Nat)).take k).flatten :=
  c5_amended [[0x3C, 0x80], [0x90]] 1 0x7C (by decide)

/-- C5 counterexample: `pantilt_simulator.read_response` stops because of its
accumulated byte count.  Sixty payload bytes and the end marker all arrive
before the deadline, yet the loop exits once the frame buffer reaches
`max_bytes = 50`, returning a truncated, incomplete buffer. -/
theorem c5_counterexample :
    read_response (0x3C :: List.replicate 60 0x00 ++ [0x7C]) 50
      = 0x3C :: List.replicate 49 0x00
    ∧ frame_complete (read_response (0x3C :: List.replicate 60 0x00 ++ [0x7C]) 50)
        = false := by
  decide

/-! ## C9: a response with bytes but no start marker still counts as success -/

/-- The truthiness gate the simulator's `main` applies to the value returned
by `read_response` after sending `initialization`
(`if not response: ... continue`): the attempt advances iff the returned
byte string is nonempty. -/
def main_init_accepts (response : List Nat) : Bool := !response.isEmpty

/-- C9: when at least one byte arrives but `0x3C` never does, `read_response`
returns the raw accumulated bytes (a nonempty result, not an empty
"no response"), and `main`'s truthiness check treats the attempt as a
successful response. -/
theorem c9_raw_passthrough (stream : List Nat) (hne : stream ≠ [])
    (h : 0x3C ∉ stream) :
    read_response stream 50 = stream
    ∧ main_init_accepts (read_response stream 50) = true := by
  have hl := read_loop_no_start 50 stream h (by decide) []
  constructor
  · simp [read_response, hl]
  · cases stream with
    | nil => exact absurd rfl hne
    | cons b rest => simp [read_response, hl, main_init_accepts]

/-- Witness for C9 at the concrete junk byte `[0x80]`. -/
theorem c9_raw_passthrough_witness :
    read_response [0x80] 50 = [0x80]
    ∧ main_init_accepts (read_response [0x80] 50) = true :=
  c9_raw_passthrough [0x80] (by decide) (by decide)

/-! ## pantilt_comm.py: PanTiltConnector.run_test_sequence (lines 273-375)

The handshake is driven by an external device.  The device is modelled as an
oracle `dev : Nat → List Nat` giving the bytes returned by the k-th receive
attempt of the session (`receive_response` returns all drained bytes, so an
empty list is "no response").  The observable behaviour is an event trace:
commands sent (by name, as logged), the RTS/DTR line toggle, and each
receive's result.  Sends are modelled as succeeding (`ser.write` raising is
out of scope), and the byte-by-byte versus block send style only changes
pacing, not the trace of commands. -/

inductive Ev where
  | sent : String → Ev
  | toggledLines : Ev
  | received : List Nat → Ev
deriving DecidableEq, Repr

/-- The command names a trace sends, in order. -/
def sendNames (trace : List Ev) : List String :=
  trace.filterMap (fun e => match e with | .sent n => some n | _ => none)

/-- `try_sync` (lines 217-234): up to `attempts` sync sends, each followed by
one receive; returns on the first nonempty response.  Result: the trace, the
next receive index, and whether a response was seen. -/
def try_sync_loop (dev : Nat → List Nat) : Nat → Nat → List Ev × Nat × Bool
  | 0, k => ([], k, false)
  | n + 1, k =>
    let r := dev k
    if r.isEmpty then
      let t := try_sync_loop dev n (k + 1)
      (Ev.sent "SYNC" :: Ev.received r :: t.1, t.2.1, t.2.2)
    else ([Ev.sent "SYNC", Ev.received r], k + 1, true)

/-- The escalation of `run_test_sequence` step 1 (lines 296-345): send
`INIT`; if no response, send `ALT_INIT`; if no response, toggle the RTS/DTR
lines and send `HEARTBEAT` directly as the last probe; succeed as soon as any
receive is nonempty. -/
def init_escalation (dev : Nat → List Nat) (k : Nat) : List Ev × Nat × Bool :=
  let r1 := dev k
  if r1.isEmpty then
    let r2 := dev (k + 1)
    if r2.isEmpty then
      let r3 := dev (k + 2)
      ([Ev.sent "INIT", Ev.received r1, Ev.sent "ALT_INIT", Ev.received r2,
        Ev.toggledLines, Ev.sent "HEARTBEAT", Ev.received r3], k + 3, !r3.isEmpty)
    else ([Ev.sent "INIT", Ev.received r1, Ev.sent "ALT_INIT", Ev.received r2], k + 2, true)
  else ([Ev.sent "INIT", Ev.received r1], k + 1, true)

/-- Step 2 of `run_test_sequence` (lines 347-369): three heartbeats, each
sent and awaited; a missing response is only logged. -/
def heartbeat_cycle (dev : Nat → List Nat) (k : Nat) : List Ev × Nat :=
  ([Ev.sent "HEARTBEAT", Ev.received (dev k),
    Ev.sent "HEARTBEAT", Ev.received (dev (k + 1)),
    Ev.sent "HEARTBEAT", Ev.received (dev (k + 2))], k + 3)

/-- `run_test_sequence`: sync (result ignored), buffer clear, the
initialization escalation (returning `False` if every escalation receive was
empty), then the heartbeat cycle and `return True`. -/
def run_test_sequence (dev : Nat → List Nat) (k : Nat) : List Ev × Nat × Bool :=
  let s := try_sync_loop dev 5 k
  let e := init_escalation dev s.2.1
  if e.2.2 then
    let h := heartbeat_cycle dev e.2.1
    (s.1 ++ e.1 ++ h.1, h.2, true)
  else (s.1 ++ e.1, e.2.1, false)

/-- `run_test_sequence` reports success exactly when the initialization
escalation did; the heartbeat cycle's responses never change the outcome. -/
theorem run_test_sequence_outcome (dev : Nat → List Nat) (k : Nat) :
    (run_test_sequence dev k).2.2
      = (init_escalation dev (try_sync_loop dev 5 k).2.1).2.2 := by
  simp only [run_test_sequence]
  split
  · next h => exact h.symm
  · next h =>
      simp only [Bool.not_eq_true] at h
      exact h.symm

/-- C1 (amended): in `run_test_sequence` the escalation sub-steps are
attempted in exactly the order plain `INIT`, then `ALT_INIT`, then a line
toggle followed directly by the `HEARTBEAT` probe — there is no resend of the
initialization command after the toggle.  Any nonempty response at a sub-step
skips the remaining sub-steps and reaches Ready; the heartbeat probe is never
attempted before the two earlier sub-steps went unanswered, and `ALT_INIT` is
never attempted before plain `INIT` went unanswered. -/
theorem c1_escalation_order (dev : Nat → List Nat) (k : Nat) :
    (sendNames (init_escalation dev k).1 = ["INIT"]
      ∨ sendNames (init_escalation dev k).1 = ["INIT", "ALT_INIT"]
      ∨ sendNames (init_escalation dev k).1 = ["INIT", "ALT_INIT", "HEARTBEAT"])
    ∧ ((init_escalation dev k).2.2 = true ↔
        (dev k ≠ [] ∨ dev (k + 1) ≠ [] ∨ dev (k + 2) ≠ []))
    ∧ ("HEARTBEAT" ∈ sendNames (init_escalation dev k).1 →
        dev k = [] ∧ dev (k + 1) = [])
    ∧ ("ALT_INIT" ∈ sendNames (init_escalation dev k).1 → dev k = [])
    ∧ (run_test_sequence dev k).2.2
        = (init_escalation dev (try_sync_loop dev 5 k).2.1).2.2 := by
  by_cases h1 : dev k = []
  · by_cases h2 : dev (k + 1) = []
    · by_cases h3 : dev (k + 2) = []
      · refine ⟨?_, ?_, ?_, ?_, run_test_sequence_outcome dev k⟩ <;>
          simp [init_escalation, sendNames, h1, h2, h3]
      · refine ⟨?_, ?_, ?_, ?_, run_test_sequence_outcome dev k⟩ <;>
          simp [init_escalation, sendNames, h1, h2, h3]
    · refine ⟨?_, ?_, ?_, ?_, run_test_sequence_outcome dev k⟩ <;>
        simp [init_escalation, sendNames, h1, h2]
  · refine ⟨?_, ?_, ?_, ?_, run_test_sequence_outcome dev k⟩ <;>
      simp [init_escalation, sendNames, h1]

/-- The fully silent device: every receive attempt returns nothing. -/
def silentDev : Nat → List Nat := fun _ => []

/-- C1 counterexample: against a silent device, the full trace of
`run_test_sequence` sends, in order, five `SYNC`s, `INIT`, `ALT_INIT`, then —
immediately after the line toggle — the direct `HEARTBEAT` probe.  The
initialization command is sent exactly once: the claimed third sub-step
(toggle followed by a resend of `INIT` before any heartbeat probe) does not
exist in the code. -/
theorem c1_counterexample :
    run_test_sequence silentDev 0 =
      ([Ev.sent "SYNC", Ev.received [], Ev.sent "SYNC", Ev.received [],
        Ev.sent "SYNC", Ev.received [], Ev.sent "SYNC", Ev.received [],
        Ev.sent "SYNC", Ev.received [],
        Ev.sent "INIT", Ev.received [], Ev.sent "ALT_INIT", Ev.received [],
        Ev.toggledLines, Ev.sent "HEARTBEAT", Ev.received []], 8, false)
    ∧ (sendNames (run_test_sequence silentDev 0).1).count "INIT" = 1
    ∧ (sendNames (run_test_sequence silentDev 0).1)
        = ["SYNC", "SYNC", "SYNC", "SYNC", "SYNC", "INIT", "ALT_INIT", "HEARTBEAT"] := by
  refine ⟨by decide, by decide, by decide⟩

/-! ## pantilt_simulator.py: the heartbeat cycle and configuration loop of
`main` (lines 296-363)

Here every receive goes through `read_response`, so the oracle
`dev : Nat → List Nat` gives the byte stream arriving during the k-th read
window and the loop inspects `read_response (dev k) 50`. -/

/-- The heartbeat loop of the simulator's `main` (lines 338-351): up to `n`
heartbeats; on the first heartbeat whose `read_response` is falsy the loop
sets `success = False` and breaks, skipping the remaining heartbeats.
Returns the final `success` flag and the next read index. -/
def sim_hb_loop (dev : Nat → List Nat) : Nat → Nat → Bool × Nat
  | 0, k => (true, k)
  | n + 1, k =>
    if (read_response (dev k) 50).isEmpty then (false, k + 1)
    else sim_hb_loop dev n (k + 1)

/-- C2 (amended): in `pantilt_comm.run_test_sequence`, heartbeat responses
never change the outcome — the result equals the initialization escalation's
result no matter which of the three heartbeats are answered (there is no
`Degraded` transition at all); in the simulator's `main`, by contrast, the
first missed heartbeat ends the cycle with failure, so the cycle succeeds
iff every one of the three heartbeats is answered. -/
theorem c2_heartbeat_outcome (dev : Nat → List Nat) (k : Nat) :
    ((run_test_sequence dev k).2.2
      = (init_escalation dev (try_sync_loop dev 5 k).2.1).2.2)
    ∧ ((sim_hb_loop dev 3 k).1 = true ↔
        (read_response (dev k) 50 ≠ []
          ∧ read_response (dev (k + 1)) 50 ≠ []
          ∧ read_response (dev (k + 2)) 50 ≠ [])) := by
  refine ⟨run_test_sequence_outcome dev k, ?_⟩
  by_cases h1 : read_response (dev k) 50 = []
  · simp [sim_hb_loop, h1]
  · by_cases h2 : read_response (dev (k + 1)) 50 = []
    · simp [sim_hb_loop, h1, h2]
    · by_cases h3 : read_response (dev (k + 2)) 50 = []
      · simp [sim_hb_loop, h1, h2, h3]
      · simp [sim_hb_loop, h1, h2, h3]

/-- A device that answers every heartbeat except the second with a complete
frame. -/
def hb13Dev : Nat → List Nat := fun k => if k = 1 then [] else [0x3C, 0x7C]

/-- C2 counterexample: in the simulator, a session that receives responses to
heartbeats 1 and 3 but not to heartbeat 2 ends the cycle in failure, not
success — and heartbeat 3 is never even sent (the loop breaks at index 2). -/
theorem c2_counterexample :
    (sim_hb_loop hb13Dev 3 0).1 = false
    ∧ (sim_hb_loop hb13Dev 3 0).2 = 2
    ∧ read_response (hb13Dev 0) 50 = [0x3C, 0x7C]
    ∧ read_response (hb13Dev 2) 50 = [0x3C, 0x7C] := by
  refine ⟨by decide, by decide, by decide, by decide⟩

/-! ## C3: the configuration sweeps -/

/-- A transport parameter candidate, as enumerated by the two sweeps. -/
structure TransportConfig where
  baud : Nat
  parity : String
  stopbits : Nat
  rtscts : Bool
deriving DecidableEq, Repr

/-- The fixed baud-rate list of `try_all_configurations` (line 383). -/
def baud_rates : List Nat := [9600, 4800, 2400, 19200, 38400, 57600, 115200]

/-- The four candidates `try_all_configurations` tries per baud rate
(8N1, 8N1 with RTS/CTS, 8E1, 8O1; lines 391-414). -/
def group_configs (baud : Nat) : List TransportConfig :=
  [⟨baud, "N", 1, false⟩, ⟨baud, "N", 1, true⟩, ⟨baud, "E", 1, false⟩, ⟨baud, "O", 1, false⟩]

/-- One baud group of `try_all_configurations`: connect, run the full
handshake, disconnect — once per candidate, pairing each candidate with the
outcome of its `run_test_sequence`.  The return value of `run_test_sequence`
is recorded but (as in the code) never consulted. -/
def run_group (dev : Nat → List Nat) : List TransportConfig → Nat →
    List (TransportConfig × Bool) × Nat
  | [], k => ([], k)
  | c :: cs, k =>
    let r := run_test_sequence dev k
    let t := run_group dev cs r.2.1
    ((c, r.2.2) :: t.1, t.2)

/-- The baud loop of `try_all_configurations` (lines 386-418): run all four
candidates of each baud group, then ask the operator whether to continue
(`input("Continue testing? (y/n): ")`, modelled by `cont`). -/
def sweep_loop (dev : Nat → List Nat) (cont : Nat → Bool) :
    List Nat → Nat → List (TransportConfig × Bool)
  | [], _ => []
  | baud :: rest, k =>
    let g := run_group dev (group_configs baud) k
    if cont baud then g.1 ++ sweep_loop dev cont rest g.2 else g.1

/-- `try_all_configurations`: the sweep over the fixed baud-rate list. -/
def try_all_configurations (dev : Nat → List Nat) (cont : Nat → Bool) :
    List (TransportConfig × Bool) :=
  sweep_loop dev cont baud_rates 0

/-- The connect-time sync loop of the simulator (lines 86-92): up to three
sync sends, stopping after the first one whose `read_response` is truthy;
returns the next read index. -/
def sim_sync_phase (dev : Nat → List Nat) : Nat → Nat → Nat
  | 0, k => k
  | n + 1, k =>
    if (read_response (dev k) 50).isEmpty then sim_sync_phase dev n (k + 1)
    else k + 1

/-- One configuration attempt of the simulator's `main` (lines 318-351):
connect (with its sync phase), send `initialization` and read; a falsy
response fails the attempt (`continue`); otherwise run the three-heartbeat
cycle, whose flag decides the attempt. -/
def sim_attempt (dev : Nat → List Nat) (k : Nat) : Bool × Nat :=
  let k1 := sim_sync_phase dev 3 k
  if (read_response (dev k1) 50).isEmpty then (false, k1 + 1)
  else sim_hb_loop dev 3 (k1 + 1)

/-- The fixed configuration list of the simulator's `main` (lines 296-304). -/
def configs_to_try : List TransportConfig :=
  [⟨9600, "N", 1, false⟩, ⟨9600, "E", 1, false⟩, ⟨9600, "O", 1, false⟩,
   ⟨9600, "N", 2, false⟩, ⟨9600, "E", 2, false⟩, ⟨9600, "O", 2, false⟩]

/-- The simulator's configuration loop (lines 306-361): one attempt per
configuration, recording its outcome; on the first fully successful attempt
it logs "Found working configuration!" and breaks. -/
def sim_main_loop (dev : Nat → List Nat) :
    List TransportConfig → Nat → List (TransportConfig × Bool)
  | [], _ => []
  | c :: cs, k =>
    let a := sim_attempt dev k
    if a.1 then [(c, true)] else (c, false) :: sim_main_loop dev cs a.2

/-- Each baud group of `run_group` records exactly one outcome per candidate. -/
theorem run_group_length (dev : Nat → List Nat) :
    ∀ (cs : List TransportConfig) (k : Nat), (run_group dev cs k).1.length = cs.length := by
  intro cs
  induction cs with
  | nil => intro k; simp [run_group]
  | cons c cs ih => intro k; simp [run_group, ih]

/-- C3 (amended): `pantilt_comm.try_all_configurations` never short-circuits
on success — for every device behaviour it runs the handshake for all four
candidates of the first baud group (and of every group the operator lets it
continue into, always a multiple of four attempts); it stops only at the
operator prompt between baud groups.  The simulator's configuration loop, by
contrast, does stop on the first successful attempt: a successful outcome is
always the last entry of its report, so no candidate after the first
successful one is ever attempted. -/
theorem c3_sweep (dev : Nat → List Nat) (cont : Nat → Bool) :
    (∀ (baud : Nat) (rest : List Nat) (k : Nat),
      4 ≤ (sweep_loop dev cont (baud :: rest) k).length)
    ∧ (∀ (bauds : List Nat) (k : Nat), (sweep_loop dev cont bauds k).length % 4 = 0)
    ∧ 4 ≤ (try_all_configurations dev cont).length
    ∧ (∀ (cfgs : List TransportConfig) (k : Nat)
        (pre suf : List (TransportConfig × Bool)) (x : TransportConfig × Bool),
        sim_main_loop dev cfgs k = pre ++ x :: suf → x.2 = true → suf = []) := by
  have hlen : ∀ (bauds : List Nat) (k : Nat),
      (sweep_loop dev cont bauds k).length % 4 = 0 := by
    intro bauds
    induction bauds with
    | nil => intro k; simp [sweep_loop]
    | cons baud rest ih =>
      intro k
      by_cases hc : cont baud
      · simp [sweep_loop, hc, run_group_length, List.length_append, group_configs,
          Nat.add_mod, ih]
      · simp [sweep_loop, hc, run_group_length, group_configs]
  have hfirst : ∀ (baud : Nat) (rest : List Nat) (k : Nat),
      4 ≤ (sweep_loop dev cont (baud :: rest) k).length := by
    intro baud rest k
    by_cases hc : cont baud
    · simp [sweep_loop, hc, run_group_length, group_configs]
    · simp [sweep_loop, hc, run_group_length, group_configs]
  refine ⟨hfirst, hlen, hfirst 9600 _ 0, ?_⟩
  intro cfgs
  induction cfgs with
  | nil =>
    intro k pre suf x h _
    exact absurd h.symm (by simp [sim_main_loop])
  | cons c cs ih =>
    intro k pre suf x h hx
    by_cases ha : (sim_attempt dev k).1
    · rw [sim_main_loop, if_pos ha] at h
      rcases pre with _ | ⟨p, pre⟩
      · simpa using (List.cons.injEq _ _ _ _ ▸ h).2.symm ▸ rfl
      · simp only [List.cons_append, List.cons.injEq] at h
        rcases h with ⟨rfl, h2⟩
        exact absurd h2.symm (by simp)
    · rw [sim_main_loop, if_neg ha] at h
      rcases pre with _ | ⟨p, pre⟩
      · simp only [List.nil_append, List.cons.injEq] at h
        rcases h with ⟨h1, _⟩
        rw [← h1] at hx
        simp at hx
      · simp only [List.cons_append, List.cons.injEq] at h
        exact ih _ pre suf x h.2 hx

/-- A device that answers every receive attempt with a complete frame. -/
def allDev : Nat → List Nat := fun _ => [0x3C, 0x7C]

/-- C3 counterexample: with a device on which the very first candidate's
handshake succeeds (and the operator declining to continue past the first
baud group), `try_all_configurations` still attempts all four candidates of
the group — three further candidates are attempted after the first successful
one, so the sweep does not stop on `Ready`. -/
theorem c3_counterexample :
    try_all_configurations allDev (fun _ => false)
      = [(⟨9600, "N", 1, false⟩, true), (⟨9600, "N", 1, true⟩, true),
         (⟨9600, "E", 1, false⟩, true), (⟨9600, "O", 1, false⟩, true)] := by
  decide

/-! ## C6: the two byte-pacing senders

`pantilt_protocol.send_command_with_precise_timing` (lines 98-134) and
`pantilt_comm.send_bytes_with_delay` (lines 125-152), modelled as traces of
write / flush / sleep events (sleeps in milliseconds). -/

inductive TxEv where
  | write : Nat → TxEv
  | flush : TxEv
  | sleepMs : Nat → TxEv
deriving DecidableEq, Repr

/-- The byte a trace event writes, if any. -/
def writtenByte : TxEv → Option Nat
  | .write b => some b
  | _ => none

/-- The per-byte loop of `send_command_with_precise_timing` (lines 116-129):
write, flush, then a 10 ms sleep after the escape byte `0x5C` and the uniform
`byte_delay_ms` sleep otherwise. -/
def precise_send_loop (byte_delay_ms : Nat) : List Nat → List TxEv
  | [] => []
  | b :: rest =>
    TxEv.write b :: TxEv.flush ::
      TxEv.sleepMs (if b = 0x5C then 10 else byte_delay_ms) ::
        precise_send_loop byte_delay_ms rest

/-- `send_command_with_precise_timing`: if the first byte is the start marker
`0x3C` it is written and flushed alone followed by a 20 ms sleep; the
remaining bytes go through the per-byte loop; a final 20 ms settling sleep
ends the trace. -/
def send_command_with_precise_timing (command_bytes : List Nat)
    (byte_delay_ms : Nat) : List TxEv :=
  match command_bytes with
  | b :: rest =>
    if b = 0x3C then
      TxEv.write b :: TxEv.flush :: TxEv.sleepMs 20 ::
        (precise_send_loop byte_delay_ms rest ++ [TxEv.sleepMs 20])
    else precise_send_loop byte_delay_ms (b :: rest) ++ [TxEv.sleepMs 20]
  | [] => [TxEv.sleepMs 20]

/-- The per-byte loop of `send_bytes_with_delay` (lines 135-144): write and
flush each byte, sleeping `delay_ms` after every byte except the last. -/
def comm_send_loop (delay_ms : Nat) : List Nat → List TxEv
  | [] => []
  | [b] => [TxEv.write b, TxEv.flush]
  | b :: rest =>
    TxEv.write b :: TxEv.flush :: TxEv.sleepMs delay_ms :: comm_send_loop delay_ms rest

/-- `send_bytes_with_delay`: the uniform per-byte loop followed by the fixed
20 ms post-command sleep (`time.sleep(0.02)`, line 147). -/
def send_bytes_with_delay (command_bytes : List Nat) (delay_ms : Nat) : List TxEv :=
  comm_send_loop delay_ms command_bytes ++ [TxEv.sleepMs 20]

/-- The delay the claim's pacing policy assigns to the byte at position `i`:
20 ms after a leading start marker, 10 ms after the structural marker `0x5C`,
the uniform caller-chosen delay otherwise. -/
def pacedDelay (i b d : Nat) : Nat :=
  if i = 0 ∧ b = 0x3C then 20 else if b = 0x5C then 10 else d

/-- The wire trace the claim describes (spec side, for comparison): each byte
written and flushed individually, followed by its `pacedDelay`, with the
final settling sleep. -/
def pacedPolicyFrom (d : Nat) : Nat → List Nat → List TxEv
  | _, [] => []
  | i, b :: rest =>
    TxEv.write b :: TxEv.flush :: TxEv.sleepMs (pacedDelay i b d) ::
      pacedPolicyFrom d (i + 1) rest

/-- Spec-side description of C6's pacing policy over a whole command. -/
def pacedPolicySpec (command_bytes : List Nat) (d : Nat) : List TxEv :=
  pacedPolicyFrom d 0 command_bytes ++ [TxEv.sleepMs 20]

/-- Away from position zero the claimed policy coincides with the per-byte
loop of `send_command_with_precise_timing`. -/
theorem pacedPolicyFrom_pos (d : Nat) :
    ∀ (rest : List Nat) (i : Nat), 0 < i →
      pacedPolicyFrom d i rest = precise_send_loop d rest := by
  intro rest
  induction rest with
  | nil => intro i _; simp [pacedPolicyFrom, precise_send_loop]
  | cons b rest ih =>
    intro i hi
    have : ¬(i = 0 ∧ b = 0x3C) := fun h => by omega
    simp [pacedPolicyFrom, precise_send_loop, pacedDelay, this, ih (i + 1) (by omega)]

/-- The bytes `send_bytes_with_delay` writes are exactly the command bytes,
in order, one write per byte. -/
theorem comm_send_loop_writes (d : Nat) :
    ∀ (l : List Nat), (comm_send_loop d l).filterMap writtenByte = l
  | [] => by simp [comm_send_loop]
  | [b] => by simp [comm_send_loop, writtenByte]
  | b :: c :: rest => by
    have ih := comm_send_loop_writes d (c :: rest)
    simp only [comm_send_loop, List.filterMap_cons, writtenByte] at ih ⊢
    simpa using ih

/-- C6 (amended): `send_command_with_precise_timing` realises the claimed
pacing policy exactly — a leading `0x3C` is flushed alone and followed by a
20 ms sleep, every `0x5C` is followed by a 10 ms sleep, every other byte by
the caller-chosen uniform delay, each byte written and flushed individually.
`send_bytes_with_delay` also writes each byte individually in order, but
applies only the uniform delay with no marker-specific pacing (see the
counterexample). -/
theorem c6_paced_sender (command_bytes : List Nat) (byte_delay_ms : Nat) :
    send_command_with_precise_timing command_bytes byte_delay_ms
      = pacedPolicySpec command_bytes byte_delay_ms
    ∧ (send_bytes_with_delay command_bytes byte_delay_ms).filterMap writtenByte
        = command_bytes := by
  constructor
  · match command_bytes with
    | [] => simp [send_command_with_precise_timing, pacedPolicySpec, pacedPolicyFrom]
    | b :: rest =>
      by_cases hb : b = 0x3C
      · subst hb
        simp [send_command_with_precise_timing, pacedPolicySpec, pacedPolicyFrom,
          pacedDelay, pacedPolicyFrom_pos byte_delay_ms rest 1 (by omega)]
      · have : ¬((0 : Nat) = 0 ∧ b = 0x3C) := fun h => hb h.2
        simp [send_command_with_precise_timing, pacedPolicySpec, pacedPolicyFrom,
          precise_send_loop, pacedDelay, hb, this,
          pacedPolicyFrom_pos byte_delay_ms rest 1 (by omega)]
  · simp [send_bytes_with_delay, comm_send_loop_writes, writtenByte]

/-- C6 counterexample: `send_bytes_with_delay` applies the uniform 5 ms delay
after the leading start marker `0x3C` (the claim requires 20 ms) and after
the structural marker `0x5C` (the claim requires 10 ms), and sleeps not at
all between the final byte and the settling delay. -/
theorem c6_counterexample :
    send_bytes_with_delay [0x3C, 0x5C, 0x7C] 5
      = [TxEv.write 0x3C, TxEv.flush, TxEv.sleepMs 5,
         TxEv.write 0x5C, TxEv.flush, TxEv.sleepMs 5,
         TxEv.write 0x7C, TxEv.flush, TxEv.sleepMs 20]
    ∧ send_bytes_with_delay [0x3C, 0x5C, 0x7C] 5
        ≠ pacedPolicySpec [0x3C, 0x5C, 0x7C] 5 := by
  refine ⟨by decide, by decide⟩

/-! ## C8: pantilt_simulator.py COMMANDS table and send_command (lines 29-33, 109-148) -/

/-- The `initialization` wire bytes of the `COMMANDS` table (line 31). -/
def init_command_bytes : List Nat :=
  [0x3C, 0x80, 0x5C, 0xC0, 0x5C, 0x70, 0x5C, 0x60, 0x5C, 0x82, 0xCA, 0xF8, 0xF8,
   0x0C, 0x0C, 0x9C, 0xCC, 0xAC, 0x9C, 0x8C, 0x8C, 0x5C, 0x78, 0x5C, 0xE2, 0x7C]

/-- The `heartbeat` wire bytes of the `COMMANDS` table (line 32). -/
def heartbeat_command_bytes : List Nat :=
  [0x3C, 0x80, 0x5C, 0xC0, 0x5C, 0xB0, 0x5C, 0x60, 0x5C, 0xCA, 0x2A, 0x18, 0x00,
   0x00, 0x0C, 0x0C, 0x9C, 0xCC, 0xAC, 0x9C, 0x5C, 0x08, 0x5C, 0xE2, 0x7C]

/-- The `COMMANDS` dictionary (lines 29-33): `sync` is the bare start marker. -/
def COMMANDS (name : String) : Option (List Nat) :=
  if name = "sync" then some [0x3C]
  else if name = "initialization" then some init_command_bytes
  else if name = "heartbeat" then some heartbeat_command_bytes
  else none

/-- `send_command` (lines 109-148): an unknown command type fails with
nothing written; otherwise the table's bytes are written to the wire as one
block, unchanged and unvalidated.  The wire is modelled explicitly so the
theorems can talk about what was placed on it. -/
def send_command (command_type : String) (wire : List Nat) : Bool × List Nat :=
  match COMMANDS command_type with
  | none => (false, wire)
  | some command => (true, wire ++ command)

/-- C8 (amended): `send_command` performs no marker validation.  It succeeds
exactly for names present in the `COMMANDS` table, writing the looked-up
bytes unchanged, and fails (writing nothing) only for unknown names — there
is no `MalformedTemplate` check, and the `sync` template, whose wire bytes
violate the end-marker invariant, is placed on the wire like any other. -/
theorem c8_no_marker_validation (command_type : String) (wire : List Nat) :
    ((send_command command_type wire).1 = true ↔ (COMMANDS command_type).isSome = true)
    ∧ (send_command command_type wire).2 = wire ++ (COMMANDS command_type).getD []
    ∧ ∃ sync_bytes, COMMANDS "sync" = some sync_bytes
        ∧ sync_bytes.getLast? ≠ some 0x7C
        ∧ (send_command "sync" wire).2 = wire ++ sync_bytes := by
  refine ⟨?_, ?_, ⟨[0x3C], by decide, by decide, by simp [send_command, COMMANDS]⟩⟩
  · cases h : COMMANDS command_type <;> simp [send_command, h]
  · cases h : COMMANDS command_type <;> simp [send_command, h]

/-- C8 counterexample: the `sync` `CommandTemplate` violates the marker
invariant (its single byte `0x3C` is not the end marker `0x7C`), yet
`send_command` reports success and places it on the wire — the claimed
`MalformedTemplate` failure does not happen. -/
theorem c8_counterexample :
    COMMANDS "sync" = some [0x3C]
    ∧ send_command "sync" [] = (true, [0x3C])
    ∧ frame_complete [0x3C] = false := by
  refine ⟨by decide, by decide, by decide⟩

/-! ## C10: the hex conversion helpers

`bytes_to_hex_string` (pantilt_comm lines 121-123, pantilt_protocol lines
94-96, identical), `pantilt_comm.hex_to_bytes` (lines 116-119) and
`pantilt_protocol.hex_to_bytes` (lines 85-92).  Python strings are modelled
as `List Char`. -/

/-- The uppercase hex digit `f"{n:X}"` produces for a nibble: `'0'..'9'` for
values below ten, `'A'..'F'` above. -/
def hexDigitChar (n : Nat) : Char :=
  if n < 10 then Char.ofNat (48 + n) else Char.ofNat (55 + n)

/-- The two characters `f"{b:02X}"` produces for a byte value. -/
def byteHex (b : Nat) : List Char :=
  [hexDigitChar (b / 16), hexDigitChar (b % 16)]

/-- Python's `' '.join(...)`. -/
def joinSpace : List (List Char) → List Char
  | [] => []
  | [s] => s
  | s :: rest => s ++ ' ' :: joinSpace rest

/-- `bytes_to_hex_string`: `' '.join([f"0x{b:02X}" for b in data])`. -/
def bytes_to_hex_string (data : List Nat) : List Char :=
  joinSpace (data.map (fun b => '0' :: 'x' :: byteHex b))

/-- The numeric value of a hexadecimal digit character, if it is one,
computed from its code point (either letter case accepted, as in Python). -/
def hexDigitVal (c : Char) : Option Nat :=
  if '0' ≤ c ∧ c ≤ '9' then some (c.toNat - 48)
  else if 'A' ≤ c ∧ c ≤ 'F' then some (c.toNat - 55)
  else if 'a' ≤ c ∧ c ≤ 'f' then some (c.toNat - 87)
  else none

/-- Python's `bytes.fromhex`: pairs of hex digits, spaces between bytes
skipped, anything else (including an odd digit count) an error. -/
def fromhex : List Char → Option (List Nat)
  | [] => some []
  | c :: rest =>
    if c = ' ' then fromhex rest
    else
      match rest with
      | [] => none
      | c2 :: rest2 =>
        match hexDigitVal c, hexDigitVal c2 with
        | some h, some l => (fromhex rest2).map (fun t => (16 * h + l) :: t)
        | _, _ => none

/-- Python's `str.replace('0x', '')`: delete non-overlapping occurrences of
`"0x"`, scanning left to right. -/
def strip0x : List Char → List Char
  | [] => []
  | [c] => [c]
  | c1 :: c2 :: rest =>
    if c1 = '0' ∧ c2 = 'x' then strip0x rest
    else c1 :: strip0x (c2 :: rest)

/-- Python's `str.replace(' ', '')`. -/
def remove_spaces (s : List Char) : List Char :=
  s.filter (fun c => c ≠ ' ')

/-- `pantilt_comm.hex_to_bytes`:
`bytes.fromhex(hex_string.replace('0x', '').replace(' ', ''))`. -/
def comm_hex_to_bytes (hex_string : List Char) : Option (List Nat) :=
  fromhex (remove_spaces (strip0x hex_string))

/-- Python's `hex_string.startswith("0x")`. -/
def startsWith0x : List Char → Bool
  | c1 :: c2 :: _ => c1 == '0' && c2 == 'x'
  | _ => false

/-- `dropWhile` never lengthens a list (termination helper for `splitWs`). -/
theorem dropWhile_length_le (p : Char → Bool) :
    ∀ l : List Char, (l.dropWhile p).length ≤ l.length := by
  intro l
  induction l with
  | nil => simp [List.dropWhile]
  | cons a l ih =>
    simp only [List.dropWhile]
    cases p a <;> simp <;> omega

/-- Python's whitespace `str.split()` (our strings only contain spaces). -/
def splitWs : List Char → List (List Char)
  | [] => []
  | c :: rest =>
    if c = ' ' then splitWs rest
    else (c :: rest.takeWhile (fun x => x ≠ ' '))
      :: splitWs (rest.dropWhile (fun x => x ≠ ' '))
termination_by s => s.length
decreasing_by
  · simp only [List.length_cons]
    omega
  · simp only [List.length_cons]
    exact Nat.lt_succ_of_le (dropWhile_length_le _ _)

/-- Accumulator for parsing a run of hex digits most-significant first. -/
def hexAccum : List Char → Nat → Option Nat
  | [], acc => some acc
  | c :: r, acc =>
    match hexDigitVal c with
    | some v => hexAccum r (16 * acc + v)
    | none => none

/-- Python's `int(h, 16)`: an optional `0x`/`0X` prefix, then at least one
hex digit. -/
def pyIntHex (s : List Char) : Option Nat :=
  match s with
  | '0' :: 'x' :: rest => if rest.isEmpty then none else hexAccum rest 0
  | '0' :: 'X' :: rest => if rest.isEmpty then none else hexAccum rest 0
  | _ => if s.isEmpty then none else hexAccum s 0

/-- `bytes([int(h, 16) for h in tokens])`: every token must parse and every
value must be a byte. -/
def mapIntHex : List (List Char) → Option (List Nat)
  | [] => some []
  | t :: ts =>
    match pyIntHex t, mapIntHex ts with
    | some v, some vs => if v < 256 then some (v :: vs) else none
    | _, _ => none

/-- `pantilt_protocol.hex_to_bytes`: the `"0x3C 0x80 ..."` form is split on
whitespace and parsed token-wise with `int(h, 16)`; any other form goes
through `bytes.fromhex(hex_string.replace(" ", ""))`. -/
def proto_hex_to_bytes (hex_string : List Char) : Option (List Nat) :=
  if startsWith0x hex_string then mapIntHex (splitWs hex_string)
  else fromhex (remove_spaces hex_string)

/-! ### Round-trip lemmas for the hex helpers -/

/-- Rendering and re-parsing a nibble is the identity, and the rendered digit
is never a space, an `'x'`, or outside the hex alphabet. -/
theorem hexDigit_facts : ∀ n, n < 16 →
    hexDigitVal (hexDigitChar n) = some n
    ∧ hexDigitChar n ≠ 'x' ∧ hexDigitChar n ≠ ' ' := by
  decide

/-- The nibble decomposition of a byte value. -/
theorem byte_nibbles (b : Nat) (hb : b < 256) : b / 16 < 16 ∧ b % 16 < 16 :=
  ⟨Nat.div_lt_of_lt_mul (by omega), Nat.mod_lt _ (by omega)⟩

/-- `fromhex` consumes one rendered byte at a time. -/
theorem fromhex_byteHex (b : Nat) (hb : b < 256) (rest : List Char) :
    fromhex (byteHex b ++ rest) = (fromhex rest).map (fun t => b :: t) := by
  obtain ⟨hdiv, hmod⟩ := byte_nibbles b hb
  have h1 := hexDigit_facts (b / 16) hdiv
  have h2 := hexDigit_facts (b % 16) hmod
  simp only [byteHex, List.cons_append, List.nil_append]
  simp [fromhex, h1.1, h1.2.2, h2.1, Nat.div_add_mod]

/-- Parsing the compact rendering (`"3C80..."`) recovers the bytes. -/
theorem fromhex_compact : ∀ (b : List Nat), (∀ x ∈ b, x < 256) →
    fromhex ((b.map byteHex).flatten) = some b := by
  intro b
  induction b with
  | nil => intro _; simp [fromhex]
  | cons x b ih =>
    intro h
    have hx : x < 256 := h x (by simp)
    have hrest : ∀ y ∈ b, y < 256 := fun y hy => h y (by simp [hy])
    simp only [List.map_cons, List.flatten_cons]
    rw [fromhex_byteHex x hx, ih hrest]
    rfl

/-- Every character of a rendered byte is a hex digit: never a space, never
an `'x'`, and never starts a `"0x"` pair with a following hex digit. -/
theorem byteHex_chars (b : Nat) (hb : b < 256) :
    ∀ c ∈ byteHex b, c ≠ ' ' ∧ c ≠ 'x' := by
  obtain ⟨hdiv, hmod⟩ := byte_nibbles b hb
  have h1 := hexDigit_facts (b / 16) hdiv
  have h2 := hexDigit_facts (b % 16) hmod
  intro c hc
  simp only [byteHex, List.mem_cons, List.not_mem_nil, or_false] at hc
  rcases hc with rfl | rfl
  · exact ⟨h1.2.2, h1.2.1⟩
  · exact ⟨h2.2.2, h2.2.1⟩

/-- All characters of the compact rendering are hex digits. -/
theorem compact_chars (b : List Nat) (hb : ∀ x ∈ b, x < 256) :
    ∀ c ∈ (b.map byteHex).flatten, c ≠ ' ' ∧ c ≠ 'x' := by
  intro c hc
  rw [List.mem_flatten] at hc
  obtain ⟨t, ht, hct⟩ := hc
  rw [List.mem_map] at ht
  obtain ⟨x, hx, rfl⟩ := ht
  exact byteHex_chars x (hb x hx) c hct

/-- `replace('0x', '')` leaves a string without `'x'` untouched. -/
theorem strip0x_of_no_x : ∀ (l : List Char), 'x' ∉ l → strip0x l = l := by
  intro l
  induction l with
  | nil => simp [strip0x]
  | cons c1 rest ih =>
    intro h
    match rest, ih with
    | [], _ => simp [strip0x]
    | c2 :: rest2, ih =>
      have hx : c2 ≠ 'x' := fun hh => h (by simp [hh])
      have hcond : ¬(c1 = '0' ∧ c2 = 'x') := fun hh => hx hh.2
      rw [strip0x, if_neg hcond, ih (fun hh => h (List.mem_cons_of_mem _ hh))]

/-- `replace('0x', '')` on the space-separated display strips exactly the
`"0x"` prefixes, leaving the bare hex pairs joined by spaces. -/
theorem strip0x_display : ∀ (b : List Nat), (∀ x ∈ b, x < 256) →
    strip0x (bytes_to_hex_string b) = joinSpace (b.map byteHex)
  | [], _ => by simp [bytes_to_hex_string, joinSpace, strip0x]
  | [x], h => by
    have hx := byteHex_chars x (h x (by simp))
    obtain ⟨c1, c2, hc⟩ : ∃ c1 c2, byteHex x = [c1, c2] := ⟨_, _, rfl⟩
    have h1 : c1 ≠ 'x' := (hx c1 (by simp [hc])).2
    have h2 : c2 ≠ 'x' := (hx c2 (by simp [hc])).2
    simp only [bytes_to_hex_string, List.map_cons, List.map_nil, joinSpace, hc]
    rw [strip0x, if_pos ⟨rfl, rfl⟩, strip0x, if_neg (fun hh => h2 hh.2), strip0x]
  | x :: y :: t, h => by
    have hx := byteHex_chars x (h x (by simp))
    obtain ⟨c1, c2, hc⟩ : ∃ c1 c2, byteHex x = [c1, c2] := ⟨_, _, rfl⟩
    have h2 : c2 ≠ 'x' := (hx c2 (by simp [hc])).2
    have ih := strip0x_display (y :: t) (fun a ha => h a (List.mem_cons_of_mem _ ha))
    have hshape : ∃ d rest, bytes_to_hex_string (y :: t) = '0' :: 'x' :: d :: rest := by
      cases t with
      | nil =>
        obtain ⟨d1, d2, hd⟩ : ∃ d1 d2, byteHex y = [d1, d2] := ⟨_, _, rfl⟩
        exact ⟨d1, [d2], by simp [bytes_to_hex_string, joinSpace, hd]⟩
      | cons z t' =>
        obtain ⟨d1, d2, hd⟩ : ∃ d1 d2, byteHex y = [d1, d2] := ⟨_, _, rfl⟩
        refine ⟨d1, d2 :: ' ' :: joinSpace ((z :: t').map (fun v => '0' :: 'x' :: byteHex v)), ?_⟩
        simp [bytes_to_hex_string, joinSpace, hd]
    obtain ⟨d, rest, hD⟩ := hshape
    have hdisp : bytes_to_hex_string (x :: y :: t)
        = '0' :: 'x' :: c1 :: c2 :: ' ' :: bytes_to_hex_string (y :: t) := by
      simp [bytes_to_hex_string, joinSpace, hc]
    rw [hdisp]
    rw [strip0x, if_pos ⟨rfl, rfl⟩]
    rw [strip0x, if_neg (fun hh => h2 hh.2)]
    rw [strip0x, if_neg (fun hh => by exact absurd hh.2 (by decide))]
    rw [hD]
    rw [strip0x, if_neg (fun hh => by exact absurd hh.1 (by decide))]
    rw [← hD, ih]
    have : joinSpace ((x :: y :: t).map byteHex)
        = c1 :: c2 :: ' ' :: joinSpace ((y :: t).map byteHex) := by
      simp [joinSpace, hc]
    rw [this]

/-- Removing spaces from a space-free string is the identity. -/
theorem remove_spaces_of_no_space (l : List Char) (h : ∀ c ∈ l, c ≠ ' ') :
    remove_spaces l = l :=
  List.filter_eq_self.mpr (fun c hc => by simpa using h c hc)

/-- `remove_spaces` distributes over append. -/
theorem remove_spaces_append (l m : List Char) :
    remove_spaces (l ++ m) = remove_spaces l ++ remove_spaces m := by
  simp [remove_spaces]

/-- `remove_spaces` drops a leading space. -/
theorem remove_spaces_cons_space (m : List Char) :
    remove_spaces (' ' :: m) = remove_spaces m := by
  simp [remove_spaces]

/-- Removing spaces from the space-joined tokens yields their concatenation,
when no token contains a space. -/
theorem remove_spaces_joinSpace : ∀ (toks : List (List Char)),
    (∀ t ∈ toks, ∀ c ∈ t, c ≠ ' ') →
    remove_spaces (joinSpace toks) = toks.flatten
  | [], _ => by simp [joinSpace, remove_spaces]
  | [s], h => by
    simp only [joinSpace, List.flatten_cons, List.flatten_nil, List.append_nil]
    exact remove_spaces_of_no_space s (h s (by simp))
  | s :: r :: t, h => by
    have ih := remove_spaces_joinSpace (r :: t)
      (fun u hu => h u (List.mem_cons_of_mem _ hu))
    calc remove_spaces (joinSpace (s :: r :: t))
        = remove_spaces (s ++ ' ' :: joinSpace (r :: t)) := by simp [joinSpace]
      _ = remove_spaces s ++ remove_spaces (' ' :: joinSpace (r :: t)) :=
          remove_spaces_append _ _
      _ = s ++ remove_spaces (joinSpace (r :: t)) := by
          rw [remove_spaces_of_no_space s (h s (by simp)), remove_spaces_cons_space]
      _ = s ++ (r :: t).flatten := by rw [ih]
      _ = (s :: r :: t).flatten := by simp

/-- `takeWhile`/`dropWhile` on a space-free string. -/
theorem take_drop_no_space : ∀ (l : List Char), (∀ c ∈ l, c ≠ ' ') →
    l.takeWhile (fun x => x ≠ ' ') = l ∧ l.dropWhile (fun x => x ≠ ' ') = [] := by
  intro l
  induction l with
  | nil => intro _; simp
  | cons a l ih =>
    intro h
    have ha : a ≠ ' ' := h a (by simp)
    have hl := ih (fun c hc => h c (List.mem_cons_of_mem _ hc))
    constructor
    · rw [List.takeWhile_cons, if_pos (by simpa using ha), hl.1]
    · rw [List.dropWhile_cons, if_pos (by simpa using ha), hl.2]

/-- `takeWhile`/`dropWhile` stop exactly at the first space. -/
theorem take_drop_until_space : ∀ (l J : List Char), (∀ c ∈ l, c ≠ ' ') →
    (l ++ ' ' :: J).takeWhile (fun x => x ≠ ' ') = l
    ∧ (l ++ ' ' :: J).dropWhile (fun x => x ≠ ' ') = ' ' :: J := by
  intro l J
  induction l with
  | nil =>
    intro _
    constructor
    · rw [List.nil_append, List.takeWhile_cons, if_neg (by simp)]
    · rw [List.nil_append, List.dropWhile_cons, if_neg (by simp)]
  | cons a l ih =>
    intro h
    have ha : a ≠ ' ' := h a (by simp)
    have hl := ih (fun c hc => h c (List.mem_cons_of_mem _ hc))
    constructor
    · rw [List.cons_append, List.takeWhile_cons, if_pos (by simpa using ha), hl.1]
    · rw [List.cons_append, List.dropWhile_cons, if_pos (by simpa using ha), hl.2]

/-- `split()` of a space-joined token list recovers the tokens, when every
token is nonempty and space-free. -/
theorem splitWs_joinSpace : ∀ (toks : List (List Char)),
    (∀ t ∈ toks, t ≠ [] ∧ ∀ c ∈ t, c ≠ ' ') →
    splitWs (joinSpace toks) = toks
  | [], _ => by simp [joinSpace, splitWs]
  | [s], h => by
    obtain ⟨hne, hsp⟩ := h s (by simp)
    match s, hne with
    | c :: s', _ =>
      have hc : c ≠ ' ' := hsp c (by simp)
      have hs' := take_drop_no_space s' (fun d hd => hsp d (List.mem_cons_of_mem _ hd))
      have hj : joinSpace [c :: s'] = c :: s' := rfl
      rw [hj, splitWs, if_neg hc, hs'.1, hs'.2, splitWs]
  | s :: r :: t, h => by
    obtain ⟨hne, hsp⟩ := h s (by simp)
    have ih := splitWs_joinSpace (r :: t) (fun u hu => h u (List.mem_cons_of_mem _ hu))
    match s, hne with
    | c :: s', _ =>
      have hc : c ≠ ' ' := hsp c (by simp)
      have hs' := take_drop_until_space s' (joinSpace (r :: t))
        (fun d hd => hsp d (List.mem_cons_of_mem _ hd))
      have hjoin : joinSpace ((c :: s') :: r :: t)
          = c :: (s' ++ ' ' :: joinSpace (r :: t)) := by simp [joinSpace]
      rw [hjoin, splitWs, if_neg hc, hs'.1, hs'.2]
      rw [splitWs, if_pos rfl, ih]

/-- `int(h, 16)` inverts the `"0x%02X"` rendering of a byte. -/
theorem pyIntHex_token (x : Nat) (hx : x < 256) :
    pyIntHex ('0' :: 'x' :: byteHex x) = some x := by
  obtain ⟨hdiv, hmod⟩ := byte_nibbles x hx
  have h1 := hexDigit_facts (x / 16) hdiv
  have h2 := hexDigit_facts (x % 16) hmod
  simp [pyIntHex, byteHex, hexAccum, h1.1, h2.1, Nat.div_add_mod]

/-- `bytes([int(h,16) for h in tokens])` inverts the token-wise rendering. -/
theorem mapIntHex_display : ∀ (b : List Nat), (∀ x ∈ b, x < 256) →
    mapIntHex (b.map (fun x => '0' :: 'x' :: byteHex x)) = some b := by
  intro b
  induction b with
  | nil => intro _; simp [mapIntHex]
  | cons x b ih =>
    intro h
    have hx : x < 256 := h x (by simp)
    simp [mapIntHex, pyIntHex_token x hx, ih (fun y hy => h y (List.mem_cons_of_mem _ hy)), hx]

/-- The space-separated display of a nonempty byte list starts with `"0x"`. -/
theorem startsWith0x_display (x : Nat) (b' : List Nat) :
    startsWith0x (bytes_to_hex_string (x :: b')) = true := by
  cases b' with
  | nil => simp [bytes_to_hex_string, joinSpace, startsWith0x]
  | cons y t => simp [bytes_to_hex_string, joinSpace, startsWith0x]

/-- The compact rendering of a nonempty byte list never starts with `"0x"`
(its second character is a hex digit, never the letter `'x'`). -/
theorem startsWith0x_compact (x : Nat) (hx : x < 256) (b' : List Nat) :
    startsWith0x (((x :: b').map byteHex).flatten) = false := by
  obtain ⟨hdiv, hmod⟩ := byte_nibbles x hx
  have h2 := hexDigit_facts (x % 16) hmod
  have : ((x :: b').map byteHex).flatten
      = hexDigitChar (x / 16) :: hexDigitChar (x % 16) :: (b'.map byteHex).flatten := by
    simp [byteHex]
  rw [this]
  simp [startsWith0x, h2.2.1]

/-- C10: parsing the hex display back yields the original bytes, for both
helpers and both accepted forms — `hex_to_bytes (bytes_to_hex_string b) = b`
in `pantilt_comm` and `pantilt_protocol`, and likewise for the compact
`"3C80..."` rendering. -/
theorem c10_hex_roundtrip (b : List Nat) (hb : ∀ x ∈ b, x < 256) :
    comm_hex_to_bytes (bytes_to_hex_string b) = some b
    ∧ proto_hex_to_bytes (bytes_to_hex_string b) = some b
    ∧ comm_hex_to_bytes ((b.map byteHex).flatten) = some b
    ∧ proto_hex_to_bytes ((b.map byteHex).flatten) = some b := by
  have hchars := compact_chars b hb
  have hnospace : ∀ c ∈ (b.map byteHex).flatten, c ≠ ' ' := fun c hc => (hchars c hc).1
  have hnox : 'x' ∉ (b.map byteHex).flatten := fun hmem => (hchars 'x' hmem).2 rfl
  have htoks : ∀ t ∈ b.map byteHex, ∀ c ∈ t, c ≠ ' ' := by
    intro t ht c hc
    rw [List.mem_map] at ht
    obtain ⟨x, hx, rfl⟩ := ht
    exact (byteHex_chars x (hb x hx) c hc).1
  refine ⟨?_, ?_, ?_, ?_⟩
  · unfold comm_hex_to_bytes
    rw [strip0x_display b hb, remove_spaces_joinSpace (b.map byteHex) htoks,
      fromhex_compact b hb]
  · cases b with
    | nil => decide
    | cons x b' =>
      have hs := startsWith0x_display x b'
      simp only [proto_hex_to_bytes, hs, if_true]
      have hfulltoks : ∀ t ∈ (x :: b').map (fun v => '0' :: 'x' :: byteHex v),
          t ≠ [] ∧ ∀ c ∈ t, c ≠ ' ' := by
        intro t ht
        rw [List.mem_map] at ht
        obtain ⟨v, hv, rfl⟩ := ht
        refine ⟨by simp, ?_⟩
        intro c hc
        simp only [List.mem_cons] at hc
        rcases hc with rfl | rfl | hc
        · decide
        · decide
        · exact (byteHex_chars v (hb v hv) c hc).1
      rw [show bytes_to_hex_string (x :: b')
          = joinSpace ((x :: b').map (fun v => '0' :: 'x' :: byteHex v)) from rfl]
      rw [splitWs_joinSpace _ hfulltoks, mapIntHex_display (x :: b') hb]
  · unfold comm_hex_to_bytes
    rw [strip0x_of_no_x _ hnox, remove_spaces_of_no_space _ hnospace,
      fromhex_compact b hb]
  · cases b with
    | nil => decide
    | cons x b' =>
      have hsw := startsWith0x_compact x (hb x (by simp)) b'
      simp only [proto_hex_to_bytes, hsw, Bool.false_eq_true, if_false]
      rw [remove_spaces_of_no_space _ hnospace, fromhex_compact _ hb]

/-- Witness for C10 at the concrete byte list `[0x3C, 0x80]`. -/
theorem c10_hex_roundtrip_witness :
    comm_hex_to_bytes (bytes_to_hex_string [0x3C, 0x80]) = some [0x3C, 0x80]
    ∧ proto_hex_to_bytes (bytes_to_hex_string [0x3C, 0x80]) = some [0x3C, 0x80]
    ∧ comm_hex_to_bytes ((([0x3C, 0x80] : List Nat).map byteHex).flatten)
        = some [0x3C, 0x80]
    ∧ proto_hex_to_bytes ((([0x3C, 0x80] : List Nat).map byteHex).flatten)
        = some [0x3C, 0x80] :=
  c10_hex_roundtrip [0x3C, 0x80] (by decide)
